import Mathlib

/-!
Verification of the Amawk HTTP load generator core (src/main.rs) against its
specification.

Shallow embedding conventions:
* `std::time::Duration` is modelled as an exact rational number of seconds (ℚ).
  Rust's `Duration` is a nonnegative nanosecond-exact quantity; no claim below
  depends on sub-nanosecond effects or on the nanosecond truncation performed
  by `Duration::div`, which is therefore written as exact rational division.
* `hyper::Uri` is modelled as a `String` (no claim inspects URI structure).
* Network I/O and the process-wide random source are passed in as explicit
  oracle functions: `fetch` gives the classified outcome `get_url` would
  return for a request, `randF i` is the i-th `rand::random::<f64>()` draw
  and `randIdx i` the i-th `Uniform` index sample.
* A Rust panic (`assert_ne!`, `Duration` division by zero) is modelled as the
  `Except.error` / `Option.none` branch of the embedded function.
* Rust `f64` values drawn from `rand` are modelled as rationals; the
  interval properties proved about them are stated over exact arithmetic.
-/

namespace Amawk

/-- `enum RequestStatus` from main.rs: the outcome of one HTTP fetch attempt.
`Sucess` (sic, source spelling) carries the elapsed wall-clock time and the
resolved URL; `Other` carries an optional cause description. -/
inductive RequestStatus where
  | Sucess (delay : ℚ) (url : String)
  | HttpParseError
  | InvalidStatusCode
  | Timeout
  | Other (cause : Option String)
deriving DecidableEq, Repr

/-- Whether a `RequestStatus` is the `Sucess` variant. -/
def RequestStatus.isSuccess : RequestStatus → Bool
  | .Sucess _ _ => true
  | _ => false

/-- The elapsed time carried by a `Sucess` status (0 for non-success). -/
def RequestStatus.successDelay : RequestStatus → ℚ
  | .Sucess d _ => d
  | _ => 0

/-- The `Option`-valued projection used by `get_stat`'s `filter_map` calls:
the elapsed time of a `Sucess` reduced outcome, `none` otherwise. -/
def RequestStatus.successDelayOpt : RequestStatus → Option ℚ
  | .Sucess d _ => some d
  | _ => none

/-- `struct Request` from main.rs: a target URI and a post-fetch delay. -/
structure Request where
  uri : String
  delay : ℚ
deriving DecidableEq, Repr

/-- `struct RankedRequest` from main.rs: a weighted, named request chain. -/
structure RankedRequest where
  proportion : Nat
  name : String
  requests : List Request
deriving DecidableEq, Repr

/-- `struct RequestGroup` from main.rs: the whole load plan. -/
structure RequestGroup where
  requests : List RankedRequest
  number_of_requests : Nat
  duration : ℚ

/-! ## Chain-level reduction (`get_stat::get_chain_status`) -/

/-- Loop body of `get_stat::get_chain_status`: walk the step outcomes in
order, accumulating the elapsed times of `Sucess` steps; return the first
non-success outcome immediately, or `Sucess` with the accumulated total and an
empty URL when the walk finishes. -/
def get_chain_status_go (duration : ℚ) : List RequestStatus → RequestStatus
  | [] => .Sucess duration ""
  | s :: rest =>
    match s with
    | .Sucess d _ => get_chain_status_go (duration + d) rest
    | .HttpParseError => .HttpParseError
    | .Timeout => .Timeout
    | .InvalidStatusCode => .InvalidStatusCode
    | .Other c => .Other c

/-- `get_stat::get_chain_status` from main.rs: reduce one chain's list of
per-step outcomes to a single chain-level outcome. -/
def get_chain_status (s : List RequestStatus) : RequestStatus :=
  get_chain_status_go 0 s

/-! ## Per-group aggregation (`get_stat`)

One group of `get_stat`'s input map is a name together with
`requests : Vec<Vec<RequestStatus>>`, the chain results of that group. -/

/-- The elapsed times of the group's `Sucess`-reduced chains, in chain order
(the `map get_chain_status` + `filter_map` pipeline of `get_stat`). -/
def success_delays (requests : List (List RequestStatus)) : List ℚ :=
  (requests.map get_chain_status).filterMap RequestStatus.successDelayOpt

/-- `num_sucess` in `get_stat`: the number of `Sucess`-reduced chains. -/
def num_sucess (requests : List (List RequestStatus)) : Nat :=
  (success_delays requests).length

/-- `errors` in `get_stat`: the non-success reduced outcomes of the group, in
chain order (the source's `filter_map` returns each non-success outcome
unchanged, so it is a filter). -/
def group_errors (requests : List (List RequestStatus)) : List RequestStatus :=
  (requests.map get_chain_status).filter (fun r => !r.isSuccess)

/-- One `HashMap` update of `get_stat`'s error-counting loop: if the outcome
is already a key its count is incremented, otherwise it is inserted with
count 0 (the source inserts 0, not 1, on first sight). -/
def bump_count (e : RequestStatus) :
    List (RequestStatus × Nat) → List (RequestStatus × Nat)
  | [] => [(e, 0)]
  | (k, v) :: rest =>
    if k = e then (k, v + 1) :: rest else (k, v) :: bump_count e rest

/-- `error_hashmap` in `get_stat`, as an association list. Rust's `HashMap`
enumerates its entries in an unspecified order; this model keeps them in
first-insertion order. The key-to-count mapping is the same either way, and
every theorem below evaluates it only on inputs whose final `error_tree` is
identical for every enumeration order. -/
def error_hashmap (errors : List RequestStatus) : List (RequestStatus × Nat) :=
  errors.foldl (fun acc e => bump_count e acc) []

/-- One `BTreeMap<usize, RequestStatus>` insertion: keys (the counts) are kept
in ascending order and an insertion with an existing key replaces its value,
exactly as collecting into a `BTreeMap` does. -/
def tree_insert (key : Nat) (val : RequestStatus) :
    List (Nat × RequestStatus) → List (Nat × RequestStatus)
  | [] => [(key, val)]
  | (k, v) :: rest =>
    if key < k then (key, val) :: (k, v) :: rest
    else if key = k then (key, val) :: rest
    else (k, v) :: tree_insert key val rest

/-- `error_tree` in `get_stat`: the `(count, outcome)` pairs of the hash map
collected into a count-keyed ordered map. -/
def error_tree (counts : List (RequestStatus × Nat)) : List (Nat × RequestStatus) :=
  counts.foldl (fun acc p => tree_insert p.2 p.1 acc) []

/-- `common_errors` in `get_stat`: the values of `error_tree` in its iteration
order, i.e. ascending by count. -/
def common_errors (requests : List (List RequestStatus)) : List RequestStatus :=
  (error_tree (error_hashmap (group_errors requests))).map (fun p => p.2)

/-- `mean` in `get_stat`: the sum of the success delays divided by
`num_sucess`. The source divides a `Duration` by `num_sucess as u32` with no
zero guard; `Duration` division by zero panics, modelled as `none`. -/
def average_total_load_time (requests : List (List RequestStatus)) : Option ℚ :=
  if num_sucess requests = 0 then none
  else some ((success_delays requests).sum / (num_sucess requests : ℚ))

/-- `number_of_failed_requests` in `get_stat`: the number of chains whose
reduced outcome is not `Sucess`. -/
def number_of_failed_requests (requests : List (List RequestStatus)) : Nat :=
  ((requests.map get_chain_status).filter (fun r => !r.isSuccess)).length

/-- `struct StatisticsClient` from main.rs, the per-group statistics row. The
`standard_deviation: Duration` field (an `f64` square root in the source) is
not modelled numerically: no claim depends on its value, and once
`num_sucess > 0` its computation cannot panic. -/
structure StatisticsClient where
  name : String
  total : Nat
  average_total_load_time : ℚ
  number_of_failed_requests : Nat
  common_errors : List RequestStatus
deriving DecidableEq, Repr

/-- The body of `get_stat`'s per-group closure: build one `StatisticsClient`
from a group's name and chain results. `none` models the `Duration`
divide-by-zero panic that occurs when the group has no successful chain. -/
def mk_statistics_client (name : String) (requests : List (List RequestStatus)) :
    Option StatisticsClient :=
  match average_total_load_time requests with
  | none => none
  | some mean =>
    some ⟨name, requests.length, mean, number_of_failed_requests requests,
      common_errors requests⟩

/-! ## Scheduler (`run_request_group`) -/

/-- The population expansion at the top of `run_request_group`: each ranked
request contributes `proportion` copies of its `(requests, name)` pair, and
the per-chain blocks are concatenated in declaration order. -/
def expand_population (requests : List RankedRequest) : List (List Request × String) :=
  (requests.map (fun r => List.replicate r.proportion (r.requests, r.name))).flatten

/-- The `times` iterator of `run_request_group`: `number_of_requests`
independent draws, the i-th being the pair of the start delay
`rand::random::<f64>() * duration` and a `Uniform`-sampled population
index. -/
def draw_samples (numReq : Nat) (duration : ℚ) (randF : Nat → ℚ)
    (randIdx : Nat → Nat) : List (ℚ × Nat) :=
  (List.range numReq).map (fun i => (randF i * duration, randIdx i))

/-- The list of statuses `run_request_chain` resolves to: `join_all` over
`requests.iter().map(run_request)` yields exactly one classified outcome per
request, in request order, where `fetch` stands for the outcome `get_url`
returns for each request. -/
def run_request_chain_result (fetch : Request → RequestStatus)
    (requests : List Request) : List RequestStatus :=
  requests.map fetch

/-- The per-draw `(name, chain result)` pairs of `run_request_group`, in draw
order: the i-th draw selects population entry `randIdx i`, records its name,
and runs its chain with the i-th network oracle. The drawn start delay only
shifts timing (see `run_request_chain_timed`) and never changes the status
list, so it does not appear here. An out-of-range index (impossible for the
source's `Uniform::from(0..len)` sample) falls back to the empty entry. -/
def raw_results (fetch : Nat → Request → RequestStatus) (randIdx : Nat → Nat)
    (group : RequestGroup) : List (String × List RequestStatus) :=
  (List.range group.number_of_requests).map (fun i =>
    (((expand_population group.requests).getD (randIdx i) ([], "")).2,
      run_request_chain_result (fetch i)
        (((expand_population group.requests).getD (randIdx i) ([], "")).1)))

/-- One step of `run_request_group`'s grouping loop: append one chain result
to its name's bucket, creating the bucket on first sight. -/
def insert_result (name : String) (result : List RequestStatus) :
    List (String × List (List RequestStatus)) → List (String × List (List RequestStatus))
  | [] => [(name, [result])]
  | (n, rs) :: rest =>
    if n = name then (n, rs ++ [result]) :: rest
    else (n, rs) :: insert_result name result rest

/-- The `status_out` map of `run_request_group`: chain results bucketed by
their originating name, in draw order within each bucket. `HashMap` key
enumeration order is unspecified in Rust; this association list keeps keys in
first-insertion order, which has the same per-key contents. -/
def group_results (l : List (String × List RequestStatus)) :
    List (String × List (List RequestStatus)) :=
  l.foldl (fun acc p => insert_result p.1 p.2 acc) []

/-- `run_request_group` from main.rs: expand the population, `assert_ne!`
that it is non-empty (a panic, modelled as the error branch, hit before any
sample is drawn), then run one chain per draw and group the results by name.
`randF` is the start-delay random source; it influences only timing, never
the returned statuses. -/
def run_request_group (fetch : Nat → Request → RequestStatus) (_randF : Nat → ℚ)
    (randIdx : Nat → Nat) (group : RequestGroup) :
    Except String (List (String × List (List RequestStatus))) :=
  if (expand_population group.requests).length = 0 then
    Except.error "assertion failed: requests.len() != 0"
  else
    Except.ok (group_results (raw_results fetch randIdx group))

/-! ## Chain execution timing (`run_request_chain` / `run_request`)

Wall-clock behavior is modelled on an abstract rational timeline. A step is
given by the pair of its fetch wall-clock duration and its post-fetch delay.
-/

/-- The timed events of one step's future. -/
structure StepTiming where
  fetchStart : ℚ
  fetchEnd : ℚ
  stepEnd : ℚ
deriving DecidableEq, Repr

/-- `run_request` as a timed event: once its future starts running at time
`t`, its `get_url` fetch occupies `[t, t + fetchDur]` and the following
`sleep(request.delay)` ends at `t + fetchDur + delay`, when the step's future
completes. -/
def run_request_timed (t fetchDur delay : ℚ) : StepTiming :=
  ⟨t, t + fetchDur, t + fetchDur + delay⟩

/-- `run_request_chain` from main.rs on the timed model: after
`sleep(starting_delay)` it awaits `join_all` over the per-step futures.
`join_all` polls every constituent future from its first poll, so every
step's fetch is initiated at the same instant `startingDelay`: the steps run
concurrently, not one after another. -/
def run_request_chain_timed (startingDelay : ℚ) (steps : List (ℚ × ℚ)) :
    List StepTiming :=
  steps.map (fun s => run_request_timed startingDelay s.1 s.2)

/-- Modelled from the spec: sequential chain execution, in which each step's
fetch begins only once the previous step's fetch has resolved and its
post-fetch delay has elapsed. Present only to state the refinement the claim
asserts; the source's `run_request_chain` does not behave like this. -/
def run_request_chain_seq_spec (startingDelay : ℚ) (steps : List (ℚ × ℚ)) :
    List StepTiming :=
  (steps.foldl
    (fun acc s =>
      ((run_request_timed acc.1 s.1 s.2).stepEnd,
        acc.2 ++ [run_request_timed acc.1 s.1 s.2]))
    ((startingDelay, []) : ℚ × List StepTiming)).2

/-! ## Theorems -/

theorem get_chain_status_go_all_success (s : List RequestStatus) :
    ∀ d : ℚ, (∀ x ∈ s, x.isSuccess) →
      get_chain_status_go d s = .Sucess (d + (s.map RequestStatus.successDelay).sum) "" := by
  induction s with
  | nil => intro d _; simp [get_chain_status_go]
  | cons hd tl ih =>
    intro d hall
    have hhd : hd.isSuccess := hall hd (List.mem_cons_self hd tl)
    match hd with
    | .Sucess e u =>
      have htl : ∀ x ∈ tl, x.isSuccess := fun x hx => hall x (List.mem_cons_of_mem _ hx)
      simp only [get_chain_status_go, ih (d + e) htl, List.map_cons, List.sum_cons,
        RequestStatus.successDelay]
      ring_nf
    | .HttpParseError => simp [RequestStatus.isSuccess] at hhd
    | .Timeout => simp [RequestStatus.isSuccess] at hhd
    | .InvalidStatusCode => simp [RequestStatus.isSuccess] at hhd
    | .Other c => simp [RequestStatus.isSuccess] at hhd

theorem get_chain_status_go_first_failure (s : List RequestStatus) :
    ∀ d : ℚ, ∀ r, s.find? (fun x => !x.isSuccess) = some r →
      get_chain_status_go d s = r := by
  induction s with
  | nil => intro d r hr; simp at hr
  | cons hd tl ih =>
    intro d r hr
    match hd with
    | .Sucess e u =>
      rw [List.find?_cons_of_neg] at hr
      · exact ih (d + e) r hr
      · simp [RequestStatus.isSuccess]
    | .HttpParseError =>
      rw [List.find?_cons_of_pos] at hr
      · cases hr; rfl
      · simp [RequestStatus.isSuccess]
    | .Timeout =>
      rw [List.find?_cons_of_pos] at hr
      · cases hr; rfl
      · simp [RequestStatus.isSuccess]
    | .InvalidStatusCode =>
      rw [List.find?_cons_of_pos] at hr
      · cases hr; rfl
      · simp [RequestStatus.isSuccess]
    | .Other c =>
      rw [List.find?_cons_of_pos] at hr
      · cases hr; rfl
      · simp [RequestStatus.isSuccess]

/-- C1: chain-level reduction yields a single outcome: if every step is
`Sucess` the result is `Sucess` whose elapsed equals the exact sum of the
per-step elapsed times (with an empty resolved URL); otherwise the result is
the first non-success step outcome in step order; in particular a chain
`[Sucess, Timeout, HttpParseError]` reduces to `Timeout`. -/
theorem chain_reduction_correct (s : List RequestStatus) :
    ((∀ x ∈ s, x.isSuccess) →
        get_chain_status s = .Sucess ((s.map RequestStatus.successDelay).sum) "")
    ∧ (∀ r, s.find? (fun x => !x.isSuccess) = some r → get_chain_status s = r)
    ∧ (∀ (e : ℚ) (u : String),
        get_chain_status [.Sucess e u, .Timeout, .HttpParseError] = .Timeout) := by
  refine ⟨fun hall => ?_, fun r hr => ?_, fun e u => rfl⟩
  · have := get_chain_status_go_all_success s 0 hall
    simpa [get_chain_status] using this
  · exact get_chain_status_go_first_failure s 0 r hr

/-- Witness for C1 at concrete inputs: an all-success chain sums its elapsed
times, and a chain with a non-success step reduces to the first such step. -/
theorem chain_reduction_correct_witness :
    get_chain_status [.Sucess 2 "a", .Sucess 5 "b"] = .Sucess 7 ""
    ∧ get_chain_status [.Sucess 3 "a", .Timeout, .HttpParseError] = .Timeout := by
  constructor
  · have h := (chain_reduction_correct [.Sucess 2 "a", .Sucess 5 "b"]).1 (by decide)
    simpa [RequestStatus.successDelay, show (2 : ℚ) + 5 = 7 by norm_num] using h
  · exact (chain_reduction_correct [.Sucess 3 "a", .Timeout, .HttpParseError]).2.2 3 "a"

/-- C10: reducing an empty list of step outcomes yields `Sucess` with elapsed
0 and an empty resolved-URL string. -/
theorem empty_chain_reduces_to_success :
    get_chain_status [] = .Sucess 0 "" := rfl

/-- C2 (refuting evaluation): on a group whose chains reduce to
`[Timeout, Timeout, HttpParseError]`, the code's `common_errors` list is
`[HttpParseError, Timeout]` — ascending frequency, the *least* common kind
first — where the claim requires descending frequency (`Timeout` first); the
value is the same for every `HashMap` enumeration order since the two counts
differ. Moreover, on a group whose chains reduce to
`[Timeout, HttpParseError]`, two distinct kinds of equal frequency, only one
entry survives the count-keyed `BTreeMap`, for every enumeration order. -/
theorem common_errors_least_frequent_first :
    common_errors [[.Timeout], [.Timeout], [.HttpParseError]]
      = [.HttpParseError, .Timeout]
    ∧ (common_errors [[.Timeout], [.HttpParseError]]).length = 1 := by decide

/-- C3 (refuting evaluation): a group whose single chain reduces to `Timeout`
has zero successes, so the source divides the `Duration` sum by zero when
computing the mean — a panic, modelled as `none` — instead of producing a
row with a "no data" sentinel; the failed count the claim expects (equal to
`total = 1`) is never delivered. -/
theorem zero_success_group_panics :
    average_total_load_time [[.Timeout]] = none
    ∧ mk_statistics_client "A" [[.Timeout]] = none
    ∧ number_of_failed_requests [[.Timeout]] = 1 := by decide

theorem failed_success_split (l : List RequestStatus) :
    (l.filter (fun r => !r.isSuccess)).length
      + (l.filterMap RequestStatus.successDelayOpt).length = l.length := by
  induction l with
  | nil => simp
  | cons hd tl ih =>
    match hd with
    | .Sucess d u =>
      simp [RequestStatus.isSuccess, RequestStatus.successDelayOpt] at ih ⊢
      omega
    | .HttpParseError =>
      simp [RequestStatus.isSuccess, RequestStatus.successDelayOpt] at ih ⊢
      omega
    | .Timeout =>
      simp [RequestStatus.isSuccess, RequestStatus.successDelayOpt] at ih ⊢
      omega
    | .InvalidStatusCode =>
      simp [RequestStatus.isSuccess, RequestStatus.successDelayOpt] at ih ⊢
      omega
    | .Other c =>
      simp [RequestStatus.isSuccess, RequestStatus.successDelayOpt] at ih ⊢
      omega

/-- C6: whenever `get_stat` produces a statistics row for a group, the row's
failed count plus the number of `Sucess`-reduced chains of the group equals
the row's total chain count. -/
theorem failed_plus_success_eq_total (name : String)
    (requests : List (List RequestStatus)) (c : StatisticsClient)
    (h : mk_statistics_client name requests = some c) :
    c.number_of_failed_requests + num_sucess requests = c.total := by
  unfold mk_statistics_client at h
  cases havg : average_total_load_time requests with
  | none => rw [havg] at h; exact absurd h (by simp)
  | some mean =>
    rw [havg] at h
    have hc : c = ⟨name, requests.length, mean, number_of_failed_requests requests,
        common_errors requests⟩ := by
      cases h; rfl
    subst hc
    show number_of_failed_requests requests + num_sucess requests = requests.length
    have := failed_success_split (requests.map get_chain_status)
    simpa [number_of_failed_requests, num_sucess, success_delays] using this

/-- Witness for C6 at a concrete group: one successful and one timed-out
chain give failed count 1, success count 1, total 2. -/
theorem failed_plus_success_eq_total_witness :
    (StatisticsClient.mk "A" 2 1 1 [.Timeout]).number_of_failed_requests
      + num_sucess [[.Sucess 1 "u"], [.Timeout]]
      = (StatisticsClient.mk "A" 2 1 1 [.Timeout]).total :=
  failed_plus_success_eq_total "A" [[.Sucess 1 "u"], [.Timeout]] _ (by
    simp [mk_statistics_client, average_total_load_time, num_sucess, success_delays,
      get_chain_status, get_chain_status_go, RequestStatus.successDelayOpt,
      number_of_failed_requests, common_errors, group_errors, error_hashmap, error_tree,
      bump_count, tree_insert, RequestStatus.isSuccess])

theorem expand_population_cons (a : RankedRequest) (tl : List RankedRequest) :
    expand_population (a :: tl)
      = List.replicate a.proportion (a.requests, a.name) ++ expand_population tl := by
  simp [expand_population]

theorem mem_expand_population {x : List Request × String} {rs : List RankedRequest}
    (hx : x ∈ expand_population rs) : ∃ b ∈ rs, x = (b.requests, b.name) := by
  simp only [expand_population, List.mem_flatten, List.mem_map] at hx
  obtain ⟨l, ⟨b, hb, rfl⟩, hxl⟩ := hx
  exact ⟨b, hb, List.eq_of_mem_replicate hxl⟩

theorem count_expand_population (rs : List RankedRequest)
    (hdist : rs.Pairwise (fun a b => (a.requests, a.name) ≠ (b.requests, b.name))) :
    ∀ r ∈ rs, (expand_population rs).count (r.requests, r.name) = r.proportion := by
  induction rs with
  | nil => intro r hr; simp at hr
  | cons a tl ih =>
    intro r hr
    rw [List.pairwise_cons] at hdist
    obtain ⟨ha, htl⟩ := hdist
    rw [expand_population_cons, List.count_append]
    rcases List.mem_cons.mp hr with rfl | hrtl
    · have hzero : (expand_population tl).count (r.requests, r.name) = 0 := by
        rw [List.count_eq_zero]
        intro hmem
        obtain ⟨b, hb, heq⟩ := mem_expand_population hmem
        exact ha b hb heq
      rw [hzero, List.count_replicate]
      simp
    · have hne : (a.requests, a.name) ≠ ((r.requests, r.name) : List Request × String) :=
        ha r hrtl
      rw [List.count_replicate, if_neg (by simpa using hne), ih htl r hrtl]
      exact Nat.zero_add _

/-- C7: expanding the weighted chain list yields a population whose size is
the sum of the declared weights, and in which — whenever the declared
`(sequence, name)` pairs are pairwise distinct — each chain's pair appears
exactly `proportion` many times. -/
theorem weighted_expansion_correct (rs : List RankedRequest) :
    (expand_population rs).length = (rs.map (fun r => r.proportion)).sum
    ∧ (rs.Pairwise (fun a b => (a.requests, a.name) ≠ (b.requests, b.name)) →
        ∀ r ∈ rs, (expand_population rs).count (r.requests, r.name) = r.proportion) := by
  constructor
  · rw [expand_population, List.length_flatten, List.map_map]
    have hfun : (List.length ∘ fun r : RankedRequest =>
        List.replicate r.proportion (r.requests, r.name))
        = fun r : RankedRequest => r.proportion := by
      funext r
      simp
    rw [hfun]
  · exact fun hdist => count_expand_population rs hdist

/-- Witness for C7: a plan with weights 1 and 2 expands to a population of
size 3 in which the second chain's pair appears exactly twice. -/
theorem weighted_expansion_correct_witness :
    (expand_population [⟨1, "A", [⟨"u", 0⟩]⟩, ⟨2, "B", [⟨"v", 0⟩]⟩]).length = 3
    ∧ (expand_population [⟨1, "A", [⟨"u", 0⟩]⟩, ⟨2, "B", [⟨"v", 0⟩]⟩]).count
        ([⟨"v", 0⟩], "B") = 2 := by
  constructor
  · simpa using
      (weighted_expansion_correct [⟨1, "A", [⟨"u", 0⟩]⟩, ⟨2, "B", [⟨"v", 0⟩]⟩]).1
  · simpa using
      (weighted_expansion_correct [⟨1, "A", [⟨"u", 0⟩]⟩, ⟨2, "B", [⟨"v", 0⟩]⟩]).2
        (by decide) ⟨2, "B", [⟨"v", 0⟩]⟩ (by decide)

/-- C8: if the expanded population is empty, `run_request_group` hits the
`assert_ne!` and aborts — for every network oracle and every random source,
i.e. before any sampling or scheduling is performed. -/
theorem empty_population_aborts (fetch : Nat → Request → RequestStatus)
    (randF : Nat → ℚ) (randIdx : Nat → Nat) (group : RequestGroup)
    (h : expand_population group.requests = []) :
    run_request_group fetch randF randIdx group
      = Except.error "assertion failed: requests.len() != 0" := by
  unfold run_request_group
  rw [if_pos (by simp [h])]

/-- Witness for C8: a plan with no chains aborts with the assertion error. -/
theorem empty_population_aborts_witness :
    run_request_group (fun _ _ => .Timeout) (fun _ => 0) (fun _ => 0)
        ⟨[], 5, 1⟩
      = Except.error "assertion failed: requests.len() != 0" :=
  empty_population_aborts (fun _ _ => .Timeout) (fun _ => 0) (fun _ => 0)
    ⟨[], 5, 1⟩ rfl

theorem insert_result_total (name : String) (result : List RequestStatus)
    (acc : List (String × List (List RequestStatus))) :
    ((insert_result name result acc).map (fun e => e.2.length)).sum
      = ((acc.map (fun e => e.2.length)).sum) + 1 := by
  induction acc with
  | nil => simp [insert_result]
  | cons hd tl ih =>
    obtain ⟨n, rs⟩ := hd
    by_cases h : n = name
    · simp [insert_result, h]
      omega
    · simp [insert_result, h, ih]
      omega

theorem group_results_total_aux (l : List (String × List RequestStatus)) :
    ∀ acc, (((l.foldl (fun acc p => insert_result p.1 p.2 acc) acc).map
        (fun e => e.2.length)).sum)
      = ((acc.map (fun e => e.2.length)).sum) + l.length := by
  induction l with
  | nil => intro acc; simp
  | cons hd tl ih =>
    intro acc
    simp only [List.foldl_cons, List.length_cons]
    rw [ih, insert_result_total]
    omega

theorem group_results_total (l : List (String × List RequestStatus)) :
    ((group_results l).map (fun e => e.2.length)).sum = l.length := by
  simpa [group_results] using group_results_total_aux l []

/-- C5: for a plan with `number_of_requests = N` and a non-empty population,
`run_request_group` succeeds and produces exactly `N` chain results — as the
per-draw list and as the total over the grouped buckets — and the i-th
produced chain result has exactly one status per step of the population
entry its index draw selected. -/
theorem scheduler_produces_n_results (fetch : Nat → Request → RequestStatus)
    (randF : Nat → ℚ) (randIdx : Nat → Nat) (group : RequestGroup)
    (hpop : expand_population group.requests ≠ []) :
    run_request_group fetch randF randIdx group
      = Except.ok (group_results (raw_results fetch randIdx group))
    ∧ (raw_results fetch randIdx group).length = group.number_of_requests
    ∧ ((group_results (raw_results fetch randIdx group)).map
        (fun e => e.2.length)).sum = group.number_of_requests
    ∧ ∀ i, i < group.number_of_requests →
        ((raw_results fetch randIdx group).getD i ("", [])).2.length
          = ((expand_population group.requests).getD (randIdx i) ([], "")).1.length := by
  refine ⟨?_, ?_, ?_, ?_⟩
  · unfold run_request_group
    rw [if_neg (by simpa [List.length_eq_zero] using hpop)]
  · simp [raw_results]
  · rw [group_results_total]
    simp [raw_results]
  · intro i hi
    have hlen : i < (raw_results fetch randIdx group).length := by
      simpa [raw_results] using hi
    rw [List.getD_eq_getElem _ _ hlen]
    simp [raw_results, run_request_chain_result]

/-- Witness for C5: a one-chain plan with two draws produces two chain
results in total, and draw 0's result has one status per step of the selected
population entry. -/
theorem scheduler_produces_n_results_witness :
    ((group_results (raw_results (fun _ _ => .Timeout) (fun _ => 0)
        ⟨[⟨1, "A", [⟨"u", 0⟩]⟩], 2, 0⟩)).map (fun e => e.2.length)).sum = 2
    ∧ ((raw_results (fun _ _ => .Timeout) (fun _ => 0)
        ⟨[⟨1, "A", [⟨"u", 0⟩]⟩], 2, 0⟩).getD 0 ("", [])).2.length
      = ((expand_population [⟨1, "A", [⟨"u", 0⟩]⟩]).getD 0 ([], "")).1.length :=
  ⟨(scheduler_produces_n_results (fun _ _ => .Timeout) (fun _ => 0) (fun _ => 0)
      ⟨[⟨1, "A", [⟨"u", 0⟩]⟩], 2, 0⟩ (by decide)).2.2.1,
    (scheduler_produces_n_results (fun _ _ => .Timeout) (fun _ => 0) (fun _ => 0)
      ⟨[⟨1, "A", [⟨"u", 0⟩]⟩], 2, 0⟩ (by decide)).2.2.2 0 (by decide)⟩

/-- C9: every drawn start delay is `randF i * duration` with
`randF i ∈ [0, 1)`, hence nonnegative, strictly below the smear window when
the window is positive, and exactly 0 when the window is 0. -/
theorem start_delay_in_window (numReq : Nat) (duration : ℚ) (randF : Nat → ℚ)
    (randIdx : Nat → Nat) (hr : ∀ i, 0 ≤ randF i ∧ randF i < 1)
    (hd : 0 ≤ duration) :
    ∀ p ∈ draw_samples numReq duration randF randIdx,
      0 ≤ p.1 ∧ (0 < duration → p.1 < duration) ∧ (duration = 0 → p.1 = 0) := by
  intro p hp
  simp only [draw_samples, List.mem_map, List.mem_range] at hp
  obtain ⟨i, _, rfl⟩ := hp
  refine ⟨mul_nonneg (hr i).1 hd, fun hpos => ?_, fun hzero => ?_⟩
  · calc randF i * duration < 1 * duration := by
          exact mul_lt_mul_of_pos_right (hr i).2 hpos
      _ = duration := one_mul duration
  · rw [hzero, mul_zero]

/-- Witness for C9: with `randF ≡ 1/2` and a window of 5 seconds, the drawn
delay `5/2` is nonnegative, below 5, and the zero-window clause holds
vacuously. -/
theorem start_delay_in_window_witness :
    0 ≤ ((1 : ℚ)/2 * 5) ∧ (0 < (5 : ℚ) → (1 : ℚ)/2 * 5 < 5)
      ∧ ((5 : ℚ) = 0 → (1 : ℚ)/2 * 5 = 0) :=
  start_delay_in_window 1 5 (fun _ => 1/2) (fun _ => 0)
    (fun _ => ⟨by norm_num, by norm_num⟩) (by norm_num)
    ((1 : ℚ)/2 * 5, 0) (by simp [draw_samples])

/-- C4 (counterexample): with two steps of fetch duration 1 and no post
delay, started at delay 0, the source's `join_all`-based chain runner starts
the second step's fetch at time 0, strictly before the first step's fetch
resolves at time 1 — refuting the claim that each step blocks the chain
before the next step's fetch begins. -/
theorem chain_runner_not_sequential :
    ((run_request_chain_timed 0 [(1, 0), (1, 0)]).getD 1 ⟨0, 0, 0⟩).fetchStart
      < ((run_request_chain_timed 0 [(1, 0), (1, 0)]).getD 0 ⟨0, 0, 0⟩).fetchEnd := by
  norm_num [run_request_chain_timed, run_request_timed]

/-- C4 (amended): the chain runner returns one status per step, in step
order, with no early termination — the i-th status is the classification of
the i-th step's fetch regardless of any other step's outcome — but the steps
are not run sequentially: every step's fetch starts at the same instant, the
chain's start delay. -/
theorem chain_runner_concurrent (startingDelay : ℚ) (steps : List (ℚ × ℚ))
    (requests : List Request) (fetch : Request → RequestStatus) :
    (∀ t ∈ run_request_chain_timed startingDelay steps, t.fetchStart = startingDelay)
    ∧ (run_request_chain_result fetch requests).length = requests.length
    ∧ ∀ i, i < requests.length →
        (run_request_chain_result fetch requests).getD i (.Other none)
          = fetch (requests.getD i ⟨"", 0⟩) := by
  refine ⟨?_, ?_, ?_⟩
  · intro t ht
    simp only [run_request_chain_timed, List.mem_map] at ht
    obtain ⟨s, _, rfl⟩ := ht
    rfl
  · simp [run_request_chain_result]
  · intro i hi
    have hlen : i < (run_request_chain_result fetch requests).length := by
      simpa [run_request_chain_result] using hi
    rw [List.getD_eq_getElem _ _ hlen, List.getD_eq_getElem _ _ hi]
    simp [run_request_chain_result]

/-- Witness for C4's amended theorem: a one-step chain with a `Timeout`
fetch yields `[Timeout]`, and its single timed step starts its fetch at the
chain's start delay 3. -/
theorem chain_runner_concurrent_witness :
    (run_request_chain_result (fun _ => .Timeout) [⟨"u", 0⟩]).getD 0 (.Other none)
      = RequestStatus.Timeout :=
  (chain_runner_concurrent 3 [(1, 2)] [⟨"u", 0⟩] (fun _ => .Timeout)).2.2 0
    (by decide)

end Amawk
